import Mathlib

/-!
Verification of the chatterbox-onnx TTS inference engine core against its
natural-language specification.

The definitions below are shallow embeddings of the corresponding C++
functions of the repository (src/src/tts/ChatterboxTTS.cpp,
src/include/tts/ChatterboxTTS.h, VoiceConditionalsCache.cpp,
OnnxSessionManager.cpp).  Machine floats are embedded as rationals where the
arithmetic matters (logit post-processing) and as 32-bit patterns (naturals)
where only raw bytes matter (serialization); machine integers are naturals
or integers with explicit bounds where overflow could matter.
-/

namespace ChatterboxSpec

/-- Start-of-speech token constant (ChatterboxTTS.h). -/
def START_SPEECH_TOKEN : Int := 6561

/-- Stop-of-speech token constant (ChatterboxTTS.h). -/
def STOP_SPEECH_TOKEN : Int := 6562

/-- Silence token constant (ChatterboxTTS.h). -/
def SILENCE_TOKEN : Int := 4299

/-!
## Repetition penalty (ChatterboxTTS.cpp, ApplyRepetitionPenalty)

The C++ body iterates over every element of `generatedTokens`; for each
occurrence whose value is a valid index into `logits` it multiplies the
current logit by `penalty` when negative and divides otherwise.  Logits are
embedded as rationals.
-/

/-- One iteration of the loop body of `ApplyRepetitionPenalty`: the update
performed for a single element `token` of the history. -/
def applyPenaltyAt (logits : List ℚ) (token : Int) (penalty : ℚ) : List ℚ :=
  if 0 ≤ token ∧ token < (logits.length : Int) then
    logits.set token.toNat
      (if logits.getD token.toNat 0 < 0 then logits.getD token.toNat 0 * penalty
       else logits.getD token.toNat 0 / penalty)
  else logits

/-- Embedding of `ChatterboxTTS::ApplyRepetitionPenalty`: early return when
`penalty == 1.0f`, otherwise a fold of `applyPenaltyAt` over the whole
token history (one update per occurrence). -/
def ApplyRepetitionPenalty (logits : List ℚ) (generatedTokens : List Int)
    (penalty : ℚ) : List ℚ :=
  if penalty = 1 then logits
  else generatedTokens.foldl (fun z tok => applyPenaltyAt z tok penalty) logits

theorem applyPenaltyAt_length (z : List ℚ) (tok : Int) (ρ : ℚ) :
    (applyPenaltyAt z tok ρ).length = z.length := by
  unfold applyPenaltyAt
  split
  · exact List.length_set ..
  · rfl

theorem applyPenaltyAt_getElem?_ne (z : List ℚ) (tok : Int) (ρ : ℚ) (t : Nat)
    (h : tok ≠ (t : Int)) : (applyPenaltyAt z tok ρ)[t]? = z[t]? := by
  unfold applyPenaltyAt
  split
  · next hc =>
    apply List.getElem?_set_ne
    intro he
    exact h (by rw [← he, Int.toNat_of_nonneg hc.1])
  · rfl

theorem foldl_penalty_not_mem (G : List Int) (ρ : ℚ) (t : Nat) :
    ∀ z : List ℚ, (t : Int) ∉ G →
      (G.foldl (fun z tok => applyPenaltyAt z tok ρ) z)[t]? = z[t]? := by
  induction G with
  | nil => intro z _; rfl
  | cons tok rest ih =>
    intro z hmem
    rw [List.mem_cons, not_or] at hmem
    rw [List.foldl_cons, ih _ hmem.2]
    exact applyPenaltyAt_getElem?_ne z tok ρ t (fun he => hmem.1 he.symm)

theorem foldl_penalty_count_one (ρ : ℚ) (t : Nat) :
    ∀ (G : List Int) (z : List ℚ), t < z.length → G.count (t : Int) = 1 →
      (G.foldl (fun z tok => applyPenaltyAt z tok ρ) z)[t]? =
        some (if z.getD t 0 < 0 then z.getD t 0 * ρ else z.getD t 0 / ρ) := by
  intro G
  induction G with
  | nil => intro z ht hc; simp at hc
  | cons tok rest ih =>
    intro z ht hc
    rw [List.count_cons] at hc
    by_cases htok : tok = (t : Int)
    · subst htok
      simp only [beq_self_eq_true, if_true] at hc
      have hrest : ((t : Nat) : Int) ∉ rest := List.count_eq_zero.mp (by omega)
      rw [List.foldl_cons, foldl_penalty_not_mem rest ρ t _ hrest]
      unfold applyPenaltyAt
      rw [if_pos ⟨Int.natCast_nonneg t, by exact_mod_cast ht⟩]
      simp only [Int.toNat_natCast]
      exact List.getElem?_set_eq_of_lt _ ht
    · have hbeq : (tok == (t : Int)) = false := by
        simp [htok]
      rw [hbeq, if_neg (by simp)] at hc
      simp only [Nat.add_zero] at hc
      rw [List.foldl_cons]
      have hlen : t < (applyPenaltyAt z tok ρ).length := by
        rw [applyPenaltyAt_length]; exact ht
      rw [ih (applyPenaltyAt z tok ρ) hlen hc]
      have hgd : (applyPenaltyAt z tok ρ).getD t 0 = z.getD t 0 := by
        rw [List.getD_eq_getElem?_getD, List.getD_eq_getElem?_getD,
            applyPenaltyAt_getElem?_ne z tok ρ t htok]
      rw [hgd]

/-- C1 (amended): the repetition-penalty transform of
`ChatterboxTTS::ApplyRepetitionPenalty` applies once per OCCURRENCE of a
token in the history `G`, not once per distinct token value: `ρ = 1` leaves
the logits unchanged, an index absent from `G` is untouched, and a token
value occurring exactly once in `G` is transformed exactly once
(multiply by `ρ` when the logit is negative, divide by `ρ` otherwise). -/
theorem ApplyRepetitionPenalty_per_occurrence (z : List ℚ) (G : List Int) (ρ : ℚ)
    (t : Nat) (ht : t < z.length) :
    (ρ = 1 → ApplyRepetitionPenalty z G ρ = z) ∧
    ((t : Int) ∉ G → (ApplyRepetitionPenalty z G ρ)[t]? = z[t]?) ∧
    (G.count (t : Int) = 1 →
      (ApplyRepetitionPenalty z G ρ)[t]? =
        some (if z.getD t 0 < 0 then z.getD t 0 * ρ else z.getD t 0 / ρ)) := by
  refine ⟨?_, ?_, ?_⟩
  · intro h1; simp [ApplyRepetitionPenalty, h1]
  · intro hmem
    unfold ApplyRepetitionPenalty
    split
    · rfl
    · exact foldl_penalty_not_mem G ρ t z hmem
  · intro hc
    unfold ApplyRepetitionPenalty
    split
    · next h1 =>
      subst h1
      rw [List.getElem?_eq_getElem ht]
      congr 1
      rw [List.getD_eq_getElem?_getD, List.getElem?_eq_getElem ht]
      simp
    · exact foldl_penalty_count_one ρ t G z ht hc

/-- Witness for `ApplyRepetitionPenalty_per_occurrence` at a concrete input:
history `[1]`, logits `[5, -3]`, penalty `2`. -/
theorem ApplyRepetitionPenalty_per_occurrence_witness :
    (ApplyRepetitionPenalty [(5 : ℚ), -3] [(1 : Int)] 2)[1]? = some ((-6 : ℚ)) := by
  have h := (ApplyRepetitionPenalty_per_occurrence [(5 : ℚ), -3] [(1 : Int)] 2 1
    (by norm_num)).2.2 (by decide)
  rw [h]
  norm_num

/-- C1 counterexample: on logits `z = [-1]`, history `G = [0, 0]` (token `0`
occurs twice) and penalty `ρ = 2`, the code multiplies twice and yields
`-4`, while the claim ("each such t is transformed exactly once regardless
of how many times it occurs in G") demands `z[0] · ρ = -2`. -/
theorem ApplyRepetitionPenalty_counterexample :
    ApplyRepetitionPenalty [(-1 : ℚ)] [0, 0] 2 = [-4] ∧
    (if (-1 : ℚ) < 0 then (-1 : ℚ) * 2 else (-1 : ℚ) / 2) = -2 ∧
    (-4 : ℚ) ≠ -2 := by
  refine ⟨?_, ?_, ?_⟩
  · norm_num [ApplyRepetitionPenalty, applyPenaltyAt, List.foldl]
  · norm_num
  · norm_num

/-!
## Decoder-input assembly (ChatterboxTTS.cpp, Generate, after the loop)

The C++ code computes `endIdx = generatedTokens.size()`, decrements it when
the final token equals the stop token, copies indices `1 .. endIdx-1` into
`speechTokens`, appends three silence tokens, and prepends the VCR's
`promptToken`.
-/

/-- Embedding of the post-loop decoder-input assembly in
`ChatterboxTTS::Generate`. -/
def assembleDecoderInput (promptToken generated : List Int) : List Int :=
  let endIdx := if generated.length > 0 ∧ generated.getLast? = some STOP_SPEECH_TOKEN
    then generated.length - 1 else generated.length
  let speechTokens := (generated.take endIdx).drop 1 ++
    [SILENCE_TOKEN, SILENCE_TOKEN, SILENCE_TOKEN]
  promptToken ++ speechTokens

/-- C2: the sequence handed to the conditional decoder is the prompt tokens,
then the generated sequence with the leading start token removed and the
trailing stop token removed when present, then exactly three silence
tokens; when the sampler emits stop after `|ts|` ordinary tokens, the
decoder input has `|promptToken| + |ts| + 3` entries. -/
theorem Generate_decoder_input (p ts : List Int) :
    assembleDecoderInput p (START_SPEECH_TOKEN :: (ts ++ [STOP_SPEECH_TOKEN])) =
      p ++ ts ++ [SILENCE_TOKEN, SILENCE_TOKEN, SILENCE_TOKEN] ∧
    (ts.getLast? ≠ some STOP_SPEECH_TOKEN →
      assembleDecoderInput p (START_SPEECH_TOKEN :: ts) =
        p ++ ts ++ [SILENCE_TOKEN, SILENCE_TOKEN, SILENCE_TOKEN]) ∧
    (assembleDecoderInput p (START_SPEECH_TOKEN :: (ts ++ [STOP_SPEECH_TOKEN]))).length =
      p.length + ts.length + 3 := by
  have hstop : assembleDecoderInput p (START_SPEECH_TOKEN :: (ts ++ [STOP_SPEECH_TOKEN])) =
      p ++ ts ++ [SILENCE_TOKEN, SILENCE_TOKEN, SILENCE_TOKEN] := by
    simp only [assembleDecoderInput]
    rw [show START_SPEECH_TOKEN :: (ts ++ [STOP_SPEECH_TOKEN]) =
        (START_SPEECH_TOKEN :: ts) ++ [STOP_SPEECH_TOKEN] from rfl]
    rw [List.getLast?_concat]
    rw [if_pos ⟨by simp, rfl⟩]
    rw [List.take_left' (by simp : (START_SPEECH_TOKEN :: ts).length =
        ((START_SPEECH_TOKEN :: ts) ++ [STOP_SPEECH_TOKEN]).length - 1)]
    rw [List.drop_one, List.tail_cons, List.append_assoc]
  refine ⟨hstop, ?_, ?_⟩
  · intro hlast
    simp only [assembleDecoderInput]
    rw [if_neg ?_]
    · rw [List.take_length, List.drop_one, List.tail_cons, List.append_assoc]
    · rintro ⟨-, hl⟩
      cases ts with
      | nil => exact absurd (Option.some.inj hl) (by decide)
      | cons b l =>
        rw [List.getLast?_cons_cons] at hl
        exact hlast hl
  · rw [hstop]
    simp only [List.length_append, List.length_cons, List.length_nil]

/-- Witness for `Generate_decoder_input` at concrete inputs: a prompt of two
tokens, five generated speech tokens followed by the stop token, and a
two-token generation that ran out of budget without a stop token. -/
theorem Generate_decoder_input_witness :
    assembleDecoderInput [10, 20] (START_SPEECH_TOKEN ::
        ([100, 200, 300, 400, 500] ++ [STOP_SPEECH_TOKEN])) =
      [10, 20] ++ [100, 200, 300, 400, 500] ++
        [SILENCE_TOKEN, SILENCE_TOKEN, SILENCE_TOKEN] ∧
    assembleDecoderInput [10, 20] (START_SPEECH_TOKEN :: [100, 200]) =
      [10, 20] ++ [100, 200] ++ [SILENCE_TOKEN, SILENCE_TOKEN, SILENCE_TOKEN] ∧
    (assembleDecoderInput [10, 20] (START_SPEECH_TOKEN ::
        ([100, 200, 300, 400, 500] ++ [STOP_SPEECH_TOKEN]))).length = 2 + 5 + 3 := by
  have h := Generate_decoder_input [10, 20] [100, 200, 300, 400, 500]
  exact ⟨h.1, (Generate_decoder_input [10, 20] [100, 200]).2.1 (by decide), h.2.2⟩

/-!
## Autoregressive-loop input bookkeeping (ChatterboxTTS.cpp, Generate)

Each loop step builds `inputs_embeds` of shape `{1, seqLen, hiddenSize}`, an
`attention_mask` of `totalSeqLen` ones with
`totalSeqLen = (step == 0) ? seqLen : currentPosition + seqLen`, and
`position_ids = [currentPosition, …, currentPosition + seqLen - 1]`;
`currentPosition` starts at 0 and advances by `seqLen` after every step that
does not sample the stop token.  These quantities depend only on the step
index and the prefill length `L0 = condSeqLen + textSeqLen`, so they are
embedded as functions of those.
-/

/-- `seqLen` of the language-model input at loop step `s`: the prefill
length `L0` at step 0, and 1 afterwards. -/
def seqLenAt (L0 : Nat) (s : Nat) : Nat := if s = 0 then L0 else 1

/-- `currentPosition` at the start of step `s`. -/
def currentPositionAt (L0 : Nat) : Nat → Nat
  | 0 => 0
  | s + 1 => currentPositionAt L0 s + seqLenAt L0 s

/-- Length of the `attention_mask` built at step `s` (`totalSeqLen`). -/
def attentionMaskLenAt (L0 : Nat) (s : Nat) : Nat :=
  if s = 0 then seqLenAt L0 s else currentPositionAt L0 s + seqLenAt L0 s

/-- The `position_ids` vector built at step `s`. -/
def positionIdsAt (L0 : Nat) (s : Nat) : List Nat :=
  (List.range (seqLenAt L0 s)).map (fun i => currentPositionAt L0 s + i)

/-- Shape of the `inputs_embeds` tensor at step `s` (`embedsShape`). -/
def embedsShapeAt (L0 hidden : Nat) (s : Nat) : List Nat :=
  [1, seqLenAt L0 s, hidden]

theorem currentPositionAt_eq_sum (L0 : Nat) (s : Nat) :
    currentPositionAt L0 s = ∑ j in Finset.range s, seqLenAt L0 j := by
  induction s with
  | zero => rfl
  | succ n ih => rw [currentPositionAt, ih, Finset.sum_range_succ]

/-- C6: at every loop step `s ≥ 1` the `inputs_embeds` sequence axis is 1,
the attention mask is one entry longer than at step `s - 1`, and
`position_ids` has `seqLen` entries whose first element is the sum of the
sequence lengths of all earlier steps. -/
theorem Generate_loop_invariants (L0 hidden s : Nat) (hs : 1 ≤ s) :
    seqLenAt L0 s = 1 ∧
    embedsShapeAt L0 hidden s = [1, 1, hidden] ∧
    attentionMaskLenAt L0 s = attentionMaskLenAt L0 (s - 1) + 1 ∧
    (positionIdsAt L0 s).length = seqLenAt L0 s ∧
    (positionIdsAt L0 s).head? = some (∑ j in Finset.range s, seqLenAt L0 j) := by
  obtain ⟨n, rfl⟩ : ∃ n, s = n + 1 := ⟨s - 1, by omega⟩
  have hseq : seqLenAt L0 (n + 1) = 1 := by simp [seqLenAt]
  refine ⟨hseq, by simp [embedsShapeAt, hseq], ?_, ?_, ?_⟩
  · cases n with
    | zero => simp [attentionMaskLenAt, currentPositionAt, seqLenAt]
    | succ m => simp [attentionMaskLenAt, currentPositionAt, seqLenAt]
  · simp [positionIdsAt]
  · rw [positionIdsAt, hseq, ← currentPositionAt_eq_sum]
    simp [List.range_succ]

/-- Witness for `Generate_loop_invariants` at `L0 = 7`, `hidden = 5`,
`s = 3`. -/
theorem Generate_loop_invariants_witness :
    seqLenAt 7 3 = 1 ∧
    embedsShapeAt 7 5 3 = [1, 1, 5] ∧
    attentionMaskLenAt 7 3 = attentionMaskLenAt 7 2 + 1 ∧
    (positionIdsAt 7 3).length = seqLenAt 7 3 ∧
    (positionIdsAt 7 3).head? = some (∑ j in Finset.range 3, seqLenAt 7 j) :=
  Generate_loop_invariants 7 5 3 (by omega)

/-!
## Voice Conditionals Record and its binary format (ChatterboxTTS.cpp)

Serialization touches float data only as raw 4-byte patterns, so `f32`
values are embedded as naturals below `2^32` (their bit patterns) and
`i64` values (tokens and shape entries) as naturals below `2^64` (their
bit patterns).  A file is a list of byte values.
-/

/-- The `VoiceConditionals` record (ChatterboxTTS.h): four data arrays and
their four shape vectors. -/
structure VoiceConditionals where
  condEmb : List Nat
  promptToken : List Nat
  speakerEmbeddings : List Nat
  speakerFeatures : List Nat
  condEmbShape : List Nat
  promptTokenShape : List Nat
  speakerEmbeddingsShape : List Nat
  speakerFeaturesShape : List Nat
deriving DecidableEq

/-- `VoiceConditionals::IsValid` (ChatterboxTTS.h line 47): the code checks
only that `condEmb` and `promptToken` are non-empty. -/
def VoiceConditionals.IsValid (v : VoiceConditionals) : Bool :=
  !v.condEmb.isEmpty && !v.promptToken.isEmpty

/-- Little-endian 4-byte encoding of a 32-bit value. -/
def u32LE (n : Nat) : List Nat :=
  [n % 256, n / 256 % 256, n / 256 ^ 2 % 256, n / 256 ^ 3 % 256]

/-- Little-endian 8-byte encoding of a 64-bit value. -/
def u64LE (n : Nat) : List Nat :=
  [n % 256, n / 256 % 256, n / 256 ^ 2 % 256, n / 256 ^ 3 % 256,
   n / 256 ^ 4 % 256, n / 256 ^ 5 % 256, n / 256 ^ 6 % 256, n / 256 ^ 7 % 256]

/-- Little-endian decoding of a byte list. -/
def decodeLE : List Nat → Nat
  | [] => 0
  | b :: bs => b + 256 * decodeLE bs

/-- Byte stream written by the `writeArray` helper of
`VoiceConditionals::Save` for an array of 4-byte (f32) elements:
`u32 numDims`, the shape as `i64`s, `u64 byteCount`, raw element bytes. -/
def writeArrayF32 (data shape : List Nat) : List Nat :=
  u32LE shape.length ++ shape.flatMap u64LE ++ u64LE (4 * data.length) ++
    data.flatMap u32LE

/-- Byte stream written by the `writeArray` helper for an array of 8-byte
(i64) elements. -/
def writeArrayI64 (data shape : List Nat) : List Nat :=
  u32LE shape.length ++ shape.flatMap u64LE ++ u64LE (8 * data.length) ++
    data.flatMap u64LE

/-- Byte stream produced by `VoiceConditionals::Save`: magic `0x434F4E44`,
version 1, then the four arrays in order. -/
def saveBytes (v : VoiceConditionals) : List Nat :=
  u32LE 0x434F4E44 ++ u32LE 1 ++
  writeArrayF32 v.condEmb v.condEmbShape ++
  writeArrayI64 v.promptToken v.promptTokenShape ++
  writeArrayF32 v.speakerEmbeddings v.speakerEmbeddingsShape ++
  writeArrayF32 v.speakerFeatures v.speakerFeaturesShape

/-- `VoiceConditionals::Save`: returns the written bytes, or `none` when
the record fails `IsValid` (the function returns `false` before writing). -/
def VoiceConditionals.Save (v : VoiceConditionals) : Option (List Nat) :=
  if v.IsValid then some (saveBytes v) else none

/-- A reader over a byte stream: consumes a prefix and yields a value and
the remaining bytes, or fails — embedding an `std::ifstream` whose
failbit, once set by an exhausted read, makes `Load` return `nullopt` at
its final stream check. -/
def Rd (α : Type) : Type := List Nat → Option (α × List Nat)

/-- Read exactly `n` raw bytes (`file.read(buf, n)`). -/
def rdBytes (n : Nat) : Rd (List Nat) := fun bs =>
  if n ≤ bs.length then some (bs.take n, bs.drop n) else none

/-- Reader returning a value without consuming input. -/
def rdPure {α : Type} (a : α) : Rd α := fun bs => some (a, bs)

/-- Sequencing of readers. -/
def rdBind {α β : Type} (r : Rd α) (f : α → Rd β) : Rd β := fun bs =>
  match r bs with
  | none => none
  | some (a, rest) => f a rest

/-- The always-failing reader. -/
def rdFail {α : Type} : Rd α := fun _ => none

/-- Fail unless `b` holds (the magic/version comparisons of `Load`). -/
def rdEnsure (b : Bool) : Rd Unit := if b then rdPure () else rdFail

/-- Read a `u32` (little-endian). -/
def rdU32 : Rd Nat := rdBind (rdBytes 4) (fun b => rdPure (decodeLE b))

/-- Read a `u64` (little-endian). -/
def rdU64 : Rd Nat := rdBind (rdBytes 8) (fun b => rdPure (decodeLE b))

/-- Split a raw byte buffer into consecutive `w`-byte little-endian
values, ignoring a trailing partial group (the in-memory array after
`resize(dataSize / elemSize)` plus a raw `file.read`). -/
def decodeChunks (w : Nat) (bs : List Nat) : List Nat :=
  if h : 0 < w ∧ w ≤ bs.length then
    decodeLE (bs.take w) :: decodeChunks w (bs.drop w)
  else []
termination_by bs.length
decreasing_by simp only [List.length_drop]; omega

/-- The `readFloatArray` lambda of `VoiceConditionals::Load`: `u32 numDims`,
`numDims` i64 shape entries, `u64 dataSize`, `dataSize` raw bytes decoded
as 4-byte elements.  Returns (data, shape). -/
def rdFloatArray : Rd (List Nat × List Nat) :=
  rdBind rdU32 fun numDims =>
  rdBind (rdBytes (8 * numDims)) fun shapeBytes =>
  rdBind rdU64 fun dataSize =>
  rdBind (rdBytes dataSize) fun dataBytes =>
  rdPure (decodeChunks 4 dataBytes, decodeChunks 8 shapeBytes)

/-- The `readInt64Array` lambda of `VoiceConditionals::Load`: as
`readFloatArray` but with 8-byte elements. -/
def rdInt64Array : Rd (List Nat × List Nat) :=
  rdBind rdU32 fun numDims =>
  rdBind (rdBytes (8 * numDims)) fun shapeBytes =>
  rdBind rdU64 fun dataSize =>
  rdBind (rdBytes dataSize) fun dataBytes =>
  rdPure (decodeChunks 8 dataBytes, decodeChunks 8 shapeBytes)

/-- Parser underlying `VoiceConditionals::Load` (after the `fs::exists`
check): magic, version, then the four arrays in order. -/
def loadRd : Rd VoiceConditionals :=
  rdBind rdU32 fun magic =>
  rdBind (rdEnsure (magic == 0x434F4E44)) fun _ =>
  rdBind rdU32 fun version =>
  rdBind (rdEnsure (version == 1)) fun _ =>
  rdBind rdFloatArray fun condE =>
  rdBind rdInt64Array fun promptT =>
  rdBind rdFloatArray fun speakerE =>
  rdBind rdFloatArray fun speakerF =>
  rdPure
    { condEmb := condE.1, condEmbShape := condE.2
      promptToken := promptT.1, promptTokenShape := promptT.2
      speakerEmbeddings := speakerE.1, speakerEmbeddingsShape := speakerE.2
      speakerFeatures := speakerF.1, speakerFeaturesShape := speakerF.2 }

/-- `VoiceConditionals::Load` on the file's bytes. -/
def VoiceConditionals.Load (bs : List Nat) : Option VoiceConditionals :=
  match loadRd bs with
  | some (v, _) => some v
  | none => none

/-- Ranges guaranteed by the C++ types: f32 patterns below `2^32`, i64
patterns below `2^64`, dimension counts below `2^32`, byte counts below
`2^64`. -/
def VoiceConditionals.WF (v : VoiceConditionals) : Prop :=
  (∀ x ∈ v.condEmb, x < 2 ^ 32) ∧ (∀ x ∈ v.speakerEmbeddings, x < 2 ^ 32) ∧
  (∀ x ∈ v.speakerFeatures, x < 2 ^ 32) ∧ (∀ x ∈ v.promptToken, x < 2 ^ 64) ∧
  (∀ x ∈ v.condEmbShape, x < 2 ^ 64) ∧ (∀ x ∈ v.promptTokenShape, x < 2 ^ 64) ∧
  (∀ x ∈ v.speakerEmbeddingsShape, x < 2 ^ 64) ∧
  (∀ x ∈ v.speakerFeaturesShape, x < 2 ^ 64) ∧
  v.condEmbShape.length < 2 ^ 32 ∧ v.promptTokenShape.length < 2 ^ 32 ∧
  v.speakerEmbeddingsShape.length < 2 ^ 32 ∧
  v.speakerFeaturesShape.length < 2 ^ 32 ∧
  4 * v.condEmb.length < 2 ^ 64 ∧ 8 * v.promptToken.length < 2 ^ 64 ∧
  4 * v.speakerEmbeddings.length < 2 ^ 64 ∧ 4 * v.speakerFeatures.length < 2 ^ 64

instance (v : VoiceConditionals) : Decidable v.WF := by
  unfold VoiceConditionals.WF
  infer_instance

theorem u32LE_length (n : Nat) : (u32LE n).length = 4 := rfl

theorem u64LE_length (n : Nat) : (u64LE n).length = 8 := rfl

theorem decodeLE_u32LE {n : Nat} (h : n < 2 ^ 32) : decodeLE (u32LE n) = n := by
  simp only [u32LE, decodeLE]
  norm_num
  omega

theorem decodeLE_u64LE {n : Nat} (h : n < 2 ^ 64) : decodeLE (u64LE n) = n := by
  simp only [u64LE, decodeLE]
  norm_num
  omega

theorem length_flatMap_u64LE (l : List Nat) :
    (l.flatMap u64LE).length = 8 * l.length := by
  induction l with
  | nil => rfl
  | cons a l ih =>
    simp only [List.flatMap_cons, List.length_append, u64LE_length, ih,
      List.length_cons]
    omega

theorem length_flatMap_u32LE (l : List Nat) :
    (l.flatMap u32LE).length = 4 * l.length := by
  induction l with
  | nil => rfl
  | cons a l ih =>
    simp only [List.flatMap_cons, List.length_append, u32LE_length, ih,
      List.length_cons]
    omega

theorem rdBytes_append {xs : List Nat} {n : Nat} (h : xs.length = n)
    (rest : List Nat) : rdBytes n (xs ++ rest) = some (xs, rest) := by
  subst h
  unfold rdBytes
  rw [if_pos (by simp), List.take_left, List.drop_left]

theorem rdU32_append {n : Nat} (h : n < 2 ^ 32) (rest : List Nat) :
    rdU32 (u32LE n ++ rest) = some (n, rest) := by
  unfold rdU32 rdBind
  rw [rdBytes_append (u32LE_length n)]
  simp [rdPure, decodeLE_u32LE h]

theorem rdU64_append {n : Nat} (h : n < 2 ^ 64) (rest : List Nat) :
    rdU64 (u64LE n ++ rest) = some (n, rest) := by
  unfold rdU64 rdBind
  rw [rdBytes_append (u64LE_length n)]
  simp [rdPure, decodeLE_u64LE h]

theorem decodeChunks_flatMap_u32LE {data : List Nat}
    (h : ∀ x ∈ data, x < 2 ^ 32) : decodeChunks 4 (data.flatMap u32LE) = data := by
  induction data with
  | nil =>
    rw [List.flatMap_nil, decodeChunks]
    simp
  | cons a l ih =>
    rw [List.flatMap_cons, decodeChunks]
    rw [dif_pos ⟨by norm_num, by
      simp only [List.length_append, u32LE_length, length_flatMap_u32LE]; omega⟩]
    rw [List.take_left' (u32LE_length a), List.drop_left' (u32LE_length a),
      decodeLE_u32LE (h a (List.mem_cons_self a l)), ih (fun x hx => h x (List.mem_cons_of_mem a hx))]

theorem decodeChunks_flatMap_u64LE {data : List Nat}
    (h : ∀ x ∈ data, x < 2 ^ 64) : decodeChunks 8 (data.flatMap u64LE) = data := by
  induction data with
  | nil =>
    rw [List.flatMap_nil, decodeChunks]
    simp
  | cons a l ih =>
    rw [List.flatMap_cons, decodeChunks]
    rw [dif_pos ⟨by norm_num, by
      simp only [List.length_append, u64LE_length, length_flatMap_u64LE]; omega⟩]
    rw [List.take_left' (u64LE_length a), List.drop_left' (u64LE_length a),
      decodeLE_u64LE (h a (List.mem_cons_self a l)), ih (fun x hx => h x (List.mem_cons_of_mem a hx))]

theorem rdFloatArray_write {data shape : List Nat}
    (hd : ∀ x ∈ data, x < 2 ^ 32) (hs : ∀ x ∈ shape, x < 2 ^ 64)
    (hn : shape.length < 2 ^ 32) (hb : 4 * data.length < 2 ^ 64)
    (rest : List Nat) :
    rdFloatArray (writeArrayF32 data shape ++ rest) = some ((data, shape), rest) := by
  simp only [writeArrayF32, List.append_assoc]
  simp only [rdFloatArray, rdBind, rdPure, rdU32_append hn,
    rdBytes_append (length_flatMap_u64LE shape), rdU64_append hb,
    rdBytes_append (length_flatMap_u32LE data),
    decodeChunks_flatMap_u32LE hd, decodeChunks_flatMap_u64LE hs]

theorem rdInt64Array_write {data shape : List Nat}
    (hd : ∀ x ∈ data, x < 2 ^ 64) (hs : ∀ x ∈ shape, x < 2 ^ 64)
    (hn : shape.length < 2 ^ 32) (hb : 8 * data.length < 2 ^ 64)
    (rest : List Nat) :
    rdInt64Array (writeArrayI64 data shape ++ rest) = some ((data, shape), rest) := by
  simp only [writeArrayI64, List.append_assoc]
  simp only [rdInt64Array, rdBind, rdPure, rdU32_append hn,
    rdBytes_append (length_flatMap_u64LE shape), rdU64_append hb,
    rdBytes_append (length_flatMap_u64LE data),
    decodeChunks_flatMap_u64LE hd, decodeChunks_flatMap_u64LE hs]

theorem rdBind_some {α β : Type} {r : Rd α} {a : α} {rest : List Nat}
    (f : α → Rd β) {bs : List Nat} (h : r bs = some (a, rest)) :
    rdBind r f bs = f a rest := by
  unfold rdBind
  rw [h]

theorem rdEnsure_true {b : Bool} (h : b = true) (bs : List Nat) :
    rdEnsure b bs = some ((), bs) := by
  rw [rdEnsure, if_pos h]
  rfl

theorem saveBytes_assoc (v : VoiceConditionals) :
    saveBytes v = u32LE 0x434F4E44 ++ (u32LE 1 ++
      (writeArrayF32 v.condEmb v.condEmbShape ++
      (writeArrayI64 v.promptToken v.promptTokenShape ++
      (writeArrayF32 v.speakerEmbeddings v.speakerEmbeddingsShape ++
      (writeArrayF32 v.speakerFeatures v.speakerFeaturesShape ++ []))))) := by
  simp [saveBytes, List.append_assoc]

theorem loadRd_saveBytes (v : VoiceConditionals) (hwf : v.WF) :
    loadRd (saveBytes v) = some (v, []) := by
  obtain ⟨h1, h2, h3, h4, h5, h6, h7, h8, h9, h10, h11, h12, h13, h14, h15, h16⟩ := hwf
  have hmagic : (0x434F4E44 : Nat) < 2 ^ 32 := by norm_num
  have hone : (1 : Nat) < 2 ^ 32 := by norm_num
  rw [saveBytes_assoc v, loadRd]
  rw [rdBind_some _ (rdU32_append hmagic _)]
  rw [rdBind_some _ (rdEnsure_true (beq_self_eq_true _) _)]
  rw [rdBind_some _ (rdU32_append hone _)]
  rw [rdBind_some _ (rdEnsure_true (beq_self_eq_true _) _)]
  rw [rdBind_some _ (rdFloatArray_write h1 h5 h9 h13 _)]
  rw [rdBind_some _ (rdInt64Array_write h4 h6 h10 h14 _)]
  rw [rdBind_some _ (rdFloatArray_write h2 h7 h11 h15 _)]
  rw [rdBind_some _ (rdFloatArray_write h3 h8 h12 h16 _)]
  rfl

theorem Load_eq_some {a : VoiceConditionals} {bs rest : List Nat}
    (h : loadRd bs = some (a, rest)) : VoiceConditionals.Load bs = some a := by
  unfold VoiceConditionals.Load
  rw [h]

theorem Load_eq_none {bs : List Nat} (h : loadRd bs = none) :
    VoiceConditionals.Load bs = none := by
  unfold VoiceConditionals.Load
  rw [h]

/-- C3: saving a valid record succeeds, and loading the written bytes back
succeeds and yields a record equal to the original in all four data
arrays and all four shape vectors. -/
theorem VoiceConditionals_save_load_roundtrip (v : VoiceConditionals)
    (hwf : v.WF) (hv : v.IsValid = true) :
    ∃ bytes, VoiceConditionals.Save v = some bytes ∧
      VoiceConditionals.Load bytes = some v := by
  refine ⟨saveBytes v, ?_, Load_eq_some (loadRd_saveBytes v hwf)⟩
  unfold VoiceConditionals.Save
  rw [hv]
  rfl


/-- Witness for `VoiceConditionals_save_load_roundtrip`: a concrete record
with all four arrays and shapes filled in. -/
theorem VoiceConditionals_save_load_roundtrip_witness :
    (VoiceConditionals.mk [1, 2] [3] [4] [5] [1, 2] [1, 1] [1, 1] [1, 1, 1]).WF ∧
    (VoiceConditionals.mk [1, 2] [3] [4] [5] [1, 2] [1, 1] [1, 1] [1, 1, 1]).IsValid = true ∧
    (∃ bytes, VoiceConditionals.Save
        (VoiceConditionals.mk [1, 2] [3] [4] [5] [1, 2] [1, 1] [1, 1] [1, 1, 1]) = some bytes ∧
      VoiceConditionals.Load bytes = some
        (VoiceConditionals.mk [1, 2] [3] [4] [5] [1, 2] [1, 1] [1, 1] [1, 1, 1])) :=
  ⟨by decide, by decide,
    VoiceConditionals_save_load_roundtrip _ (by decide) (by decide)⟩

/-!
## Prefix behaviour of the `Load` parser

`Consumes r` captures how an `std::ifstream` behaves on a truncated file:
a reader that succeeds on some input fails on every strictly shorter
prefix of it, because some `read` comes up short and the stream state
check at the end of `Load` fails.
-/

/-- A reader consumes a determined prefix of its input: on success the
remainder is a suffix of the input, every cut strictly inside the consumed
bytes makes it fail, and every cut at or beyond them preserves the value. -/
def Consumes {α : Type} (r : Rd α) : Prop :=
  ∀ bs a rest, r bs = some (a, rest) →
    ∃ c, bs = c ++ rest ∧
      (∀ m, m < c.length → r (bs.take m) = none) ∧
      (∀ m, c.length ≤ m → r (bs.take m) = some (a, rest.take (m - c.length)))

theorem consumes_rdPure {α : Type} (a : α) : Consumes (rdPure a) := by
  intro bs b rest h
  simp only [rdPure, Option.some.injEq, Prod.mk.injEq] at h
  obtain ⟨rfl, rfl⟩ := h
  refine ⟨[], by simp, by simp, ?_⟩
  intro m _
  simp [rdPure]

theorem consumes_rdFail {α : Type} : Consumes (rdFail : Rd α) := by
  intro bs a rest h
  simp [rdFail] at h

theorem consumes_rdEnsure (b : Bool) : Consumes (rdEnsure b) := by
  cases b
  · exact consumes_rdFail
  · exact consumes_rdPure ()

theorem consumes_rdBytes (n : Nat) : Consumes (rdBytes n) := by
  intro bs a rest h
  unfold rdBytes at h
  by_cases hn : n ≤ bs.length
  · rw [if_pos hn] at h
    simp only [Option.some.injEq, Prod.mk.injEq] at h
    obtain ⟨rfl, rfl⟩ := h
    refine ⟨bs.take n, (List.take_append_drop n bs).symm, ?_, ?_⟩
    · intro m hm
      rw [List.length_take] at hm
      unfold rdBytes
      rw [if_neg (by rw [List.length_take]; omega)]
    · intro m hm
      rw [List.length_take] at hm
      unfold rdBytes
      rw [if_pos (by rw [List.length_take]; omega)]
      rw [List.take_take, List.drop_take, List.length_take]
      have h1 : n ⊓ m = n := by omega
      have h2 : m - n ⊓ bs.length = m - n := by omega
      rw [h1, h2]
  · rw [if_neg hn] at h
    exact Option.noConfusion h

theorem rdBind_eq_some {α β : Type} {r : Rd α} {f : α → Rd β} {bs : List Nat}
    {b : β} {rest : List Nat} (h : rdBind r f bs = some (b, rest)) :
    ∃ a rest1, r bs = some (a, rest1) ∧ f a rest1 = some (b, rest) := by
  unfold rdBind at h
  split at h
  · exact Option.noConfusion h
  · next a rest1 heq => exact ⟨a, rest1, heq, h⟩

theorem rdBind_none {α β : Type} {r : Rd α} (f : α → Rd β) {bs : List Nat}
    (h : r bs = none) : rdBind r f bs = none := by
  unfold rdBind
  rw [h]

theorem consumes_rdBind {α β : Type} {r : Rd α} {f : α → Rd β}
    (hr : Consumes r) (hf : ∀ a, Consumes (f a)) : Consumes (rdBind r f) := by
  intro bs b rest h
  obtain ⟨a, rest1, h1, h2⟩ := rdBind_eq_some h
  obtain ⟨c1, hbs1, hfail1, hok1⟩ := hr bs a rest1 h1
  obtain ⟨c2, hbs2, hfail2, hok2⟩ := hf a rest1 b rest h2
  refine ⟨c1 ++ c2, ?_, ?_, ?_⟩
  · rw [hbs1, hbs2, List.append_assoc]
  · intro m hm
    rw [List.length_append] at hm
    by_cases hm1 : m < c1.length
    · exact rdBind_none f (hfail1 m hm1)
    · push_neg at hm1
      rw [rdBind_some f (hok1 m hm1)]
      exact hfail2 (m - c1.length) (by omega)
  · intro m hm
    rw [List.length_append] at hm
    have hm1 : c1.length ≤ m := by omega
    rw [rdBind_some f (hok1 m hm1)]
    rw [show m - (c1 ++ c2).length = m - c1.length - c2.length from by
      rw [List.length_append]; omega]
    exact hok2 (m - c1.length) (by omega)

theorem consumes_rdU32 : Consumes rdU32 :=
  consumes_rdBind (consumes_rdBytes 4) (fun _ => consumes_rdPure _)

theorem consumes_rdU64 : Consumes rdU64 :=
  consumes_rdBind (consumes_rdBytes 8) (fun _ => consumes_rdPure _)

theorem consumes_rdFloatArray : Consumes rdFloatArray :=
  consumes_rdBind consumes_rdU32 fun _ =>
  consumes_rdBind (consumes_rdBytes _) fun _ =>
  consumes_rdBind consumes_rdU64 fun _ =>
  consumes_rdBind (consumes_rdBytes _) fun _ =>
  consumes_rdPure _

theorem consumes_rdInt64Array : Consumes rdInt64Array :=
  consumes_rdBind consumes_rdU32 fun _ =>
  consumes_rdBind (consumes_rdBytes _) fun _ =>
  consumes_rdBind consumes_rdU64 fun _ =>
  consumes_rdBind (consumes_rdBytes _) fun _ =>
  consumes_rdPure _

theorem consumes_loadRd : Consumes loadRd :=
  consumes_rdBind consumes_rdU32 fun _ =>
  consumes_rdBind (consumes_rdEnsure _) fun _ =>
  consumes_rdBind consumes_rdU32 fun _ =>
  consumes_rdBind (consumes_rdEnsure _) fun _ =>
  consumes_rdBind consumes_rdFloatArray fun _ =>
  consumes_rdBind consumes_rdInt64Array fun _ =>
  consumes_rdBind consumes_rdFloatArray fun _ =>
  consumes_rdBind consumes_rdFloatArray fun _ =>
  consumes_rdPure _

theorem rdEnsure_false {b : Bool} (h : b = false) (bs : List Nat) :
    rdEnsure b bs = none := by
  rw [rdEnsure, h]
  rfl

theorem loadRd_bad_magic {m : Nat} (hm : m < 2 ^ 32) (hne : m ≠ 0x434F4E44)
    (rest : List Nat) : loadRd (u32LE m ++ rest) = none := by
  rw [loadRd, rdBind_some _ (rdU32_append hm _)]
  exact rdBind_none _ (rdEnsure_false (by simpa using hne) _)

theorem loadRd_bad_version {ver : Nat} (hv : ver < 2 ^ 32) (hne : ver ≠ 1)
    (rest : List Nat) :
    loadRd (u32LE 0x434F4E44 ++ (u32LE ver ++ rest)) = none := by
  have hmagic : (0x434F4E44 : Nat) < 2 ^ 32 := by norm_num
  rw [loadRd, rdBind_some _ (rdU32_append hmagic _)]
  rw [rdBind_some _ (rdEnsure_true (beq_self_eq_true _) _)]
  rw [rdBind_some _ (rdU32_append hv _)]
  exact rdBind_none _ (rdEnsure_false (by simpa using hne) _)

theorem loadRd_truncated (v : VoiceConditionals) (hwf : v.WF) (m : Nat)
    (hm : m < (saveBytes v).length) : loadRd ((saveBytes v).take m) = none := by
  obtain ⟨c, hc, hfail, -⟩ :=
    consumes_loadRd (saveBytes v) v [] (loadRd_saveBytes v hwf)
  have hclen : c.length = (saveBytes v).length := by
    conv_rhs => rw [hc]
    simp
  exact hfail m (by omega)

/-- `VoiceConditionalsCache::LoadFromDisk` over an abstract in-memory map
and the cache file's bytes (`none` when the file does not exist, which
makes `VoiceConditionals::Load` return `nullopt` at its `fs::exists`
check): the record is installed in the map only when `Load` succeeds. -/
def LoadFromDisk (mem : String → Option VoiceConditionals) (key : String)
    (file : Option (List Nat)) :
    (String → Option VoiceConditionals) × Bool :=
  match file with
  | none => (mem, false)
  | some bs =>
    match VoiceConditionals.Load bs with
    | none => (mem, false)
    | some v => (fun k => if k = key then some v else mem k, true)

/-- C7: `VoiceConditionals::Load` returns nothing on a file whose magic is
not `0x434F4E44`, on a file with correct magic but version other than 1,
and on every strict truncation of a saved record's file; and
`LoadFromDisk` on a missing or rejected file reports failure and leaves
the in-memory map exactly as it was. -/
theorem Load_rejects_corrupt_files :
    (∀ (m : Nat) (rest : List Nat), m < 2 ^ 32 → m ≠ 0x434F4E44 →
      VoiceConditionals.Load (u32LE m ++ rest) = none) ∧
    (∀ (ver : Nat) (rest : List Nat), ver < 2 ^ 32 → ver ≠ 1 →
      VoiceConditionals.Load (u32LE 0x434F4E44 ++ (u32LE ver ++ rest)) = none) ∧
    (∀ v : VoiceConditionals, v.WF → ∀ m, m < (saveBytes v).length →
      VoiceConditionals.Load ((saveBytes v).take m) = none) ∧
    (∀ (mem : String → Option VoiceConditionals) (key : String)
      (file : Option (List Nat)),
      (∀ bs, file = some bs → VoiceConditionals.Load bs = none) →
      LoadFromDisk mem key file = (mem, false)) := by
  refine ⟨?_, ?_, ?_, ?_⟩
  · intro m rest hm hne
    exact Load_eq_none (loadRd_bad_magic hm hne rest)
  · intro ver rest hv hne
    exact Load_eq_none (loadRd_bad_version hv hne rest)
  · intro v hwf m hm
    exact Load_eq_none (loadRd_truncated v hwf m hm)
  · intro mem key file hload
    cases file with
    | none => rfl
    | some bs =>
      simp only [LoadFromDisk]
      rw [hload bs rfl]

/-- Witness for `Load_rejects_corrupt_files`: a wrong magic (5), a wrong
version (2), truncation of a concrete record's file to 10 bytes, and a
missing file for `LoadFromDisk`. -/
theorem Load_rejects_corrupt_files_witness :
    VoiceConditionals.Load (u32LE 5 ++ []) = none ∧
    VoiceConditionals.Load (u32LE 0x434F4E44 ++ (u32LE 2 ++ [])) = none ∧
    VoiceConditionals.Load
      ((saveBytes (VoiceConditionals.mk [1] [2] [] [] [1] [1] [] [])).take 10) = none ∧
    LoadFromDisk (fun _ => none) "brute" none = (fun _ => none, false) := by
  refine ⟨?_, ?_, ?_, ?_⟩
  · exact Load_rejects_corrupt_files.1 5 [] (by norm_num) (by norm_num)
  · exact Load_rejects_corrupt_files.2.1 2 [] (by norm_num) (by norm_num)
  · exact Load_rejects_corrupt_files.2.2.1 _ (by decide) 10 (by decide)
  · exact Load_rejects_corrupt_files.2.2.2 _ "brute" none
      (fun bs h => Option.noConfusion h)

/-!
## Cache key normalization (VoiceConditionalsCache.cpp, ExtractKey)

`ExtractKey` is built on `std::filesystem::path`: the stem when the
filename has an extension, else the filename when the path has a parent,
else the string unchanged.  The embedding models the generic path grammar
with `/` and `\\` as directory separators (relative and rooted paths;
Windows drive root-names are outside the modelled fragment).  Strings are
lists of characters.
-/

/-- Directory separator. -/
def isSep (c : Char) : Bool := c == '/' || c == '\\'

/-- `path::filename()`: the component after the last directory separator
(empty when the path ends in a separator). -/
def filenameOf (s : List Char) : List Char :=
  (s.reverse.takeWhile (fun c => !isSep c)).reverse

/-- `path::has_parent_path()` for the modelled fragment: some separator
occurs. -/
def hasParentPath (s : List Char) : Bool := s.any isSep

/-- Index of the last period in a filename, if any. -/
def lastDotIdx (f : List Char) : Option Nat :=
  let suffixLen := (f.reverse.takeWhile (fun c => c != '.')).length
  if suffixLen = f.length then none else some (f.length - suffixLen - 1)

/-- `path::extension()` on a filename: empty for `.`, `..`, dotless names
and names whose only period is the leading character; otherwise the suffix
from the last period. -/
def extensionOf (f : List Char) : List Char :=
  if f = ['.', '.'] then []
  else match lastDotIdx f with
    | none => []
    | some 0 => []
    | some i => f.drop i

/-- `path::stem()`: the filename with its extension removed. -/
def stemOf (f : List Char) : List Char :=
  if f = ['.', '.'] then f
  else match lastDotIdx f with
    | none => f
    | some 0 => f
    | some i => f.take i

/-- `VoiceConditionalsCache::ExtractKey`: stem when the filename has an
extension (`p.has_extension()`), else the filename when the path has a
parent (`p.has_parent_path()`), else the input unchanged. -/
def ExtractKey (s : List Char) : List Char :=
  if (extensionOf (filenameOf s)).isEmpty = false then stemOf (filenameOf s)
  else if hasParentPath s then filenameOf s
  else s

theorem ExtractKey_sanity :
    ExtractKey "assets/malebrute.wav".toList = "malebrute".toList ∧
    ExtractKey "malebrute.xwm".toList = "malebrute".toList ∧
    ExtractKey "malebrute".toList = "malebrute".toList := by
  refine ⟨by decide, by decide, by decide⟩

theorem filenameOf_noSep (s : List Char) : ∀ c ∈ filenameOf s, isSep c = false := by
  intro c hc
  unfold filenameOf at hc
  rw [List.mem_reverse] at hc
  have := List.mem_takeWhile_imp hc
  simpa using this

theorem stemOf_subset (f : List Char) : ∀ c ∈ stemOf f, c ∈ f := by
  intro c hc
  unfold stemOf at hc
  split at hc
  · exact hc
  · split at hc
    · exact hc
    · exact hc
    · exact List.take_subset _ _ hc

theorem ExtractKey_noSep (s : List Char) : ∀ c ∈ ExtractKey s, isSep c = false := by
  intro c hc
  unfold ExtractKey at hc
  split at hc
  · exact filenameOf_noSep s c (stemOf_subset _ c hc)
  · split at hc
    · exact filenameOf_noSep s c hc
    · next hpp =>
      by_contra hsep
      apply hpp
      unfold hasParentPath
      rw [List.any_eq_true]
      exact ⟨c, hc, by simpa using hsep⟩

theorem filenameOf_eq_self {s : List Char} (h : ∀ c ∈ s, isSep c = false) :
    filenameOf s = s := by
  unfold filenameOf
  rw [List.takeWhile_eq_self_iff.mpr, List.reverse_reverse]
  intro c hc
  rw [List.mem_reverse] at hc
  simp [h c hc]

/-- C4 (amended): `ExtractKey` is idempotent exactly on inputs whose first
application leaves no further extension; in general a second application
strips one more extension (see the counterexample), because the result of
`ExtractKey` never contains a directory separator but may itself still
carry an extension. -/
theorem ExtractKey_idempotent_of_no_extension (s : List Char)
    (h : extensionOf (filenameOf (ExtractKey s)) = []) :
    ExtractKey (ExtractKey s) = ExtractKey s := by
  have hns : ∀ c ∈ ExtractKey s, isSep c = false := ExtractKey_noSep s
  have hpp : hasParentPath (ExtractKey s) = false := by
    unfold hasParentPath
    rw [List.any_eq_false]
    intro c hc
    simp [hns c hc]
  conv_lhs => rw [ExtractKey]
  rw [if_neg (by rw [h]; simp), if_neg (by rw [hpp]; simp)]

/-- Witness for `ExtractKey_idempotent_of_no_extension` at the concrete
path `assets/foo.wav` (key `foo`). -/
theorem ExtractKey_idempotent_witness :
    extensionOf (filenameOf (ExtractKey "assets/foo.wav".toList)) = [] ∧
    ExtractKey (ExtractKey "assets/foo.wav".toList) =
      ExtractKey "assets/foo.wav".toList :=
  ⟨by decide, ExtractKey_idempotent_of_no_extension _ (by decide)⟩

/-- C4 counterexample: on `ref.tar.gz` the first application strips only
the final extension (`ref.tar`), and a second application strips again
(`ref`), so `ExtractKey` is not idempotent; `ref.tar` also shows the
"file stem or the string itself" reading: the stem itself still has an
extension. -/
theorem ExtractKey_not_idempotent_counterexample :
    ExtractKey "ref.tar.gz".toList = "ref.tar".toList ∧
    ExtractKey (ExtractKey "ref.tar.gz".toList) = "ref".toList ∧
    ExtractKey (ExtractKey "ref.tar.gz".toList) ≠ ExtractKey "ref.tar.gz".toList := by
  refine ⟨by decide, by decide, by decide⟩

/-!
## Validity predicate versus the specification's wording (C5)
-/

/-- One array/shape pair as the specification words it: data and shape
header non-empty and consistent (the shape's element product equals the
number of stored elements).  Follows the spec's words, for comparison
with the code's `IsValid`. -/
def specArrayConsistent (data shape : List Nat) : Bool :=
  !data.isEmpty && !shape.isEmpty &&
    (shape.foldl (fun a b => a * b) 1 == data.length)

/-- Validity as the specification words it: "all four arrays and their
shape headers are non-empty and consistent".  Follows the spec's words,
for comparison with the code's `IsValid`. -/
def specValid (v : VoiceConditionals) : Bool :=
  specArrayConsistent v.condEmb v.condEmbShape &&
  specArrayConsistent v.promptToken v.promptTokenShape &&
  specArrayConsistent v.speakerEmbeddings v.speakerEmbeddingsShape &&
  specArrayConsistent v.speakerFeatures v.speakerFeaturesShape

/-- C5 counterexample: a record with non-empty `condEmb` and `promptToken`
but empty speaker arrays and empty shape headers passes the code's
`IsValid` while failing the specification's four-array condition. -/
theorem IsValid_counterexample :
    (VoiceConditionals.mk [1] [2] [] [] [] [] [] []).IsValid = true ∧
    specValid (VoiceConditionals.mk [1] [2] [] [] [] [] [] []) = false := by
  exact ⟨by decide, by decide⟩

/-- C5 (amended): the code's `IsValid` checks only that `condEmb` and
`promptToken` are non-empty; the specification's validity condition
implies it, but not conversely (speaker arrays and all shape headers are
unchecked). -/
theorem specValid_implies_IsValid (v : VoiceConditionals)
    (h : specValid v = true) : v.IsValid = true := by
  simp only [specValid, specArrayConsistent, Bool.and_eq_true,
    Bool.not_eq_true', List.isEmpty_eq_false] at h
  simp only [VoiceConditionals.IsValid, Bool.and_eq_true, Bool.not_eq_true',
    List.isEmpty_eq_false]
  exact ⟨h.1.1.1.1.1, h.1.1.2.1.1⟩

/-- Witness for `specValid_implies_IsValid` at a fully consistent record. -/
theorem specValid_implies_IsValid_witness :
    specValid (VoiceConditionals.mk [1, 2] [3] [4] [5] [1, 2] [1, 1] [1, 1] [1, 1, 1]) = true ∧
    (VoiceConditionals.mk [1, 2] [3] [4] [5] [1, 2] [1, 1] [1, 1] [1, 1, 1]).IsValid = true :=
  ⟨by decide, specValid_implies_IsValid _ (by decide)⟩

/-!
## Session manager load semantics (OnnxSessionManager.cpp, LoadModel)
-/

/-- Result of `OnnxSessionManager::LoadModel`: a returned boolean or a
thrown `std::runtime_error`. -/
inductive LoadOutcome
  | ok : Bool → LoadOutcome
  | thrown : LoadOutcome
deriving DecidableEq

/-- `OnnxSessionManager::IsModelLoaded` over the session map (logical name
↦ model path). -/
def IsModelLoaded (sessions : List (String × String)) (name : String) : Bool :=
  (sessions.lookup name).isSome

/-- `OnnxSessionManager::LoadModel` over the session map: a name that is
already loaded short-circuits (log and `return true`); otherwise a missing
file or a failed session construction throws, and success stores the
session.  `fileExists` abstracts `fs::exists`, `sessionOk` the
`Ort::Session` constructor. -/
def LoadModel (sessions : List (String × String)) (modelPath name : String)
    (fileExists sessionOk : Bool) : List (String × String) × LoadOutcome :=
  if IsModelLoaded sessions name then (sessions, .ok true)
  else if fileExists = false then (sessions, .thrown)
  else if sessionOk then (sessions ++ [(name, modelPath)], .ok true)
  else (sessions, .thrown)

/-- C8 counterexample: with `language_model` already loaded from
`a.onnx`, loading `b.onnx` under the same name reports plain success
(`true`) — the code has no `AlreadyLoaded` rejection — while keeping the
session map unchanged. -/
theorem LoadModel_already_loaded_counterexample :
    LoadModel [("language_model", "a.onnx")] "b.onnx" "language_model" true true =
      ([("language_model", "a.onnx")], .ok true) := by
  decide

/-- C8 (amended): when a model is already loaded under `name`, a
subsequent load of any path under that name is a no-op that returns
success (`true`) and does not replace the existing session; it is not
reported as an error. -/
theorem LoadModel_already_loaded (sessions : List (String × String))
    (modelPath name : String) (fileExists sessionOk : Bool)
    (h : IsModelLoaded sessions name = true) :
    LoadModel sessions modelPath name fileExists sessionOk =
      (sessions, .ok true) := by
  unfold LoadModel
  rw [h]
  rfl

/-- Witness for `LoadModel_already_loaded` at a concrete session map. -/
theorem LoadModel_already_loaded_witness :
    IsModelLoaded [("language_model", "a.onnx")] "language_model" = true ∧
    LoadModel [("language_model", "a.onnx")] "b.onnx" "language_model" false false =
      ([("language_model", "a.onnx")], .ok true) :=
  ⟨by decide, LoadModel_already_loaded _ _ _ _ _ (by decide)⟩

/-!
## Conditionals preparation (ChatterboxTTS.cpp, PrepareConditionals)
-/

/-- Decoded reference audio (AudioLoader.h, `AudioData`): sample count and
sample rate. -/
structure AudioData where
  samples : Nat
  sampleRate : Nat

/-- `AudioData::GetDuration`: zero for a non-positive sample rate, else
seconds as samples over rate.  Embedded as a rational; the float
comparison against 5.0 s is exact at the relevant threshold
(120000 samples at 24 kHz). -/
def AudioData.GetDuration (a : AudioData) : ℚ :=
  if a.sampleRate = 0 then 0 else (a.samples : ℚ) / (a.sampleRate : ℚ)

/-- The failure cases of `PrepareConditionals`, abstracting the
`m_lastError` strings of ChatterboxTTS.cpp ("Models not loaded", "Failed
to load audio", "Audio prompt must be longer than 5 seconds", and the
speech-encoder failures). -/
inductive PrepFailure
  | modelsNotLoaded
  | audioLoadFailed
  | referenceTooShort
  | encoderFailed
deriving DecidableEq

/-- `ChatterboxTTS::PrepareConditionals` over the engine's observable
state: `ready` abstracts `IsReady()`, `audio` the `AudioLoader` result,
`encoded` the outcome of `RunSpeechEncoder`.  Returns the stored
conditionals after the call, the failure (if any), and whether the speech
encoder was invoked. -/
def PrepareConditionals (ready : Bool) (conds : VoiceConditionals)
    (audio : Option AudioData) (encoded : Option VoiceConditionals) :
    VoiceConditionals × Option PrepFailure × Bool :=
  if ready = false then (conds, some .modelsNotLoaded, false)
  else match audio with
    | none => (conds, some .audioLoadFailed, false)
    | some a =>
      if a.GetDuration < 5 then (conds, some .referenceTooShort, false)
      else match encoded with
        | none => (conds, some .encoderFailed, true)
        | some c => (c, none, true)

/-- C9: a reference shorter than 5 seconds makes `PrepareConditionals`
fail with the reference-too-short error, without invoking the speech
encoder, and the engine's stored conditionals are exactly what they were
before the call. -/
theorem PrepareConditionals_short_reference (conds : VoiceConditionals)
    (audio : Option AudioData) (encoded : Option VoiceConditionals)
    (a : AudioData) (ha : audio = some a) (hd : a.GetDuration < 5) :
    PrepareConditionals true conds audio encoded =
      (conds, some .referenceTooShort, false) := by
  subst ha
  show (if a.GetDuration < 5 then (conds, some PrepFailure.referenceTooShort, false)
    else match encoded with
      | none => (conds, some PrepFailure.encoderFailed, true)
      | some c => (c, none, true)) = (conds, some PrepFailure.referenceTooShort, false)
  rw [if_pos hd]

/-- Witness for `PrepareConditionals_short_reference` with a 3-second
reference (72000 samples at 24 kHz). -/
theorem PrepareConditionals_short_reference_witness :
    (AudioData.mk 72000 24000).GetDuration < 5 ∧
    PrepareConditionals true (VoiceConditionals.mk [1] [2] [] [] [] [] [] [])
        (some (AudioData.mk 72000 24000)) none =
      (VoiceConditionals.mk [1] [2] [] [] [] [] [] [],
        some .referenceTooShort, false) :=
  ⟨by norm_num [AudioData.GetDuration],
    PrepareConditionals_short_reference _ _ _ _ rfl
      (by norm_num [AudioData.GetDuration])⟩

/-!
## Cache insertion (VoiceConditionalsCache.cpp, Put / SaveToDisk)
-/

/-- `VoiceConditionalsCache::Put` over abstract memory and disk maps:
reject records failing `IsValid`, install into memory, and when
`saveToDisk` persist through `SaveToDisk` (`EnsureCacheDir`, abstracted
as `dirOk`, followed by `VoiceConditionals::Save`). -/
def Put (mem : String → Option VoiceConditionals)
    (disk : String → Option (List Nat)) (dirOk : Bool) (key : String)
    (v : VoiceConditionals) (saveToDisk : Bool) :
    (String → Option VoiceConditionals) × (String → Option (List Nat)) × Bool :=
  if v.IsValid = false then (mem, disk, false)
  else
    let mem2 := fun k => if k = key then some v else mem k
    if saveToDisk then
      if dirOk = false then (mem2, disk, false)
      else match v.Save with
        | none => (mem2, disk, false)
        | some bytes => (mem2, fun k => if k = key then some bytes else disk k, true)
    else (mem2, disk, true)

/-- C10: putting a record that fails `IsValid` returns `false` and leaves
both the in-memory map and the on-disk map unchanged, for either value of
`saveToDisk`. -/
theorem Put_invalid_rejected (mem : String → Option VoiceConditionals)
    (disk : String → Option (List Nat)) (dirOk : Bool) (key : String)
    (v : VoiceConditionals) (saveToDisk : Bool) (hv : v.IsValid = false) :
    Put mem disk dirOk key v saveToDisk = (mem, disk, false) := by
  unfold Put
  rw [hv]
  rfl

/-- Witness for `Put_invalid_rejected` with an all-empty record, for both
values of `saveToDisk`. -/
theorem Put_invalid_rejected_witness :
    (VoiceConditionals.mk [] [] [] [] [] [] [] []).IsValid = false ∧
    Put (fun _ => none) (fun _ => none) true "k"
        (VoiceConditionals.mk [] [] [] [] [] [] [] []) true =
      (fun _ => none, fun _ => none, false) ∧
    Put (fun _ => none) (fun _ => none) true "k"
        (VoiceConditionals.mk [] [] [] [] [] [] [] []) false =
      (fun _ => none, fun _ => none, false) :=
  ⟨by decide, Put_invalid_rejected _ _ _ _ _ _ (by decide),
    Put_invalid_rejected _ _ _ _ _ _ (by decide)⟩

end ChatterboxSpec
